import Mathlib

/-!
# Verification of the AI quiz generator core

A shallow embedding of `quiz_generator.py`: the response parser
(`parse_questions`), the prompt builder inside `fetch_questions`, the
grading and feedback logic of `display_quiz`, and the per-run state
handling of `main`.

Python strings are modelled as `List Char`, restricted to the ASCII
fragment that the textual protocol uses: `str.strip()` strips the ASCII
whitespace characters, and `str.upper()`/`str.lower()` map the ASCII
letters.  Python's float thresholds `len(questions) * 0.7` and
`len(questions) * 0.4` in `display_quiz` are modelled as exact rational
arithmetic.
-/

/-- The whitespace characters removed by Python's `str.strip()`
(ASCII fragment). -/
def pyIsSpace (c : Char) : Bool :=
  c == ' ' || c == '\t' || c == '\n' || c == '\r' || c == '\x0b' || c == '\x0c'

/-- `str.lstrip()`: drop leading whitespace. -/
def lstrip (l : List Char) : List Char := l.dropWhile pyIsSpace

/-- `str.rstrip()`: drop trailing whitespace. -/
def rstrip (l : List Char) : List Char := (l.reverse.dropWhile pyIsSpace).reverse

/-- Python `str.strip()`: drop whitespace from both ends. -/
def pyStrip (l : List Char) : List Char := rstrip (lstrip l)

/-- `s.startswith(pat)`: `startsWith s pat` is true iff `pat` is a prefix
of `s`. -/
def startsWith : List Char → List Char → Bool
  | _, [] => true
  | [], _ :: _ => false
  | c :: cs, p :: ps => c == p && startsWith cs ps

/-- `pat in s`: some occurrence of `pat` starts at some position of `s`
(only used with non-empty `pat` and, as in the Python source, with
non-empty `s`). -/
def occurs (pat : List Char) : List Char → Bool
  | [] => false
  | c :: cs => startsWith (c :: cs) pat || occurs pat cs

/-- Worker for `removeAll`, structurally recursive on a fuel that bounds
the length of the remaining text. -/
def removeAllGo (pat : List Char) : Nat → List Char → List Char
  | _, [] => []
  | 0, s => s
  | fuel + 1, c :: cs =>
    if pat ≠ [] ∧ startsWith (c :: cs) pat = true then
      removeAllGo pat fuel ((c :: cs).drop pat.length)
    else
      c :: removeAllGo pat fuel cs

/-- Python `s.replace(pat, "")`: delete every non-overlapping occurrence of
`pat`, scanning left to right. -/
def removeAll (pat : List Char) (s : List Char) : List Char :=
  removeAllGo pat s.length s

/-- One step of an ASCII case-mapping table lookup. -/
def lookupChar : List (Char × Char) → Char → Char
  | [], c => c
  | (k, v) :: rest, c => if c = k then v else lookupChar rest c

/-- The ASCII lower-to-upper case table. -/
def upTable : List (Char × Char) :=
  [('a','A'), ('b','B'), ('c','C'), ('d','D'), ('e','E'), ('f','F'), ('g','G'),
   ('h','H'), ('i','I'), ('j','J'), ('k','K'), ('l','L'), ('m','M'), ('n','N'),
   ('o','O'), ('p','P'), ('q','Q'), ('r','R'), ('s','S'), ('t','T'), ('u','U'),
   ('v','V'), ('w','W'), ('x','X'), ('y','Y'), ('z','Z')]

/-- The ASCII upper-to-lower case table. -/
def lowTable : List (Char × Char) := upTable.map fun p => (p.2, p.1)

/-- ASCII uppercasing of one character, as `str.upper()` does. -/
def upChar (c : Char) : Char := lookupChar upTable c

/-- ASCII lowercasing of one character, as `str.lower()` does. -/
def lowChar (c : Char) : Char := lookupChar lowTable c

/-- Python `str.upper()` (ASCII fragment). -/
def pyUpper (l : List Char) : List Char := l.map upChar

/-- Python `str.lower()` (ASCII fragment). -/
def pyLower (l : List Char) : List Char := l.map lowChar

/-- Helper for `splitOnNl`: returns the chunk up to the first `'\n'` and
the list of the remaining chunks. -/
def splitNlAux : List Char → List Char × List (List Char)
  | [] => ([], [])
  | c :: cs =>
    let r := splitNlAux cs
    if c = '\n' then ([], r.1 :: r.2) else (c :: r.1, r.2)

/-- Python `s.split("\n")`. -/
def splitOnNl (s : List Char) : List (List Char) :=
  (splitNlAux s).1 :: (splitNlAux s).2

/-- Helper for `splitOnNlNl`: scanning left to right, cut at each
non-overlapping occurrence of `"\n\n"`. -/
def splitNlNlAux : List Char → List Char × List (List Char)
  | [] => ([], [])
  | [c] => ([c], [])
  | c1 :: c2 :: rest =>
    if c1 = '\n' ∧ c2 = '\n' then
      let r := splitNlNlAux rest
      ([], r.1 :: r.2)
    else
      let r := splitNlNlAux (c2 :: rest)
      (c1 :: r.1, r.2)

/-- Python `s.split("\n\n")`. -/
def splitOnNlNl (s : List Char) : List (List Char) :=
  (splitNlNlAux s).1 :: (splitNlNlAux s).2

/-- One parsed quiz question, the `q_data` dictionary of
`parse_questions`: question text, captured option lines, answer letter
string. -/
structure QData where
  question : List Char
  options : List (List Char)
  answer : List Char
deriving Repr, DecidableEq

/-- The literal `"Question:"`. -/
def qLit : List Char := "Question:".toList

/-- The literal `"Answer:"`. -/
def ansLit : List Char := "Answer:".toList

/-- The regex `^[A-D][).]`: first character `A`–`D`, second `)` or `.`. -/
def optShape : List Char → Bool
  | c1 :: c2 :: _ => ('A' ≤ c1 && c1 ≤ 'D') && (c2 == ')' || c2 == '.')
  | _ => false

/-- The body of `parse_questions`' inner `for line in lines` loop:
classify one line and update `q_data`. -/
def stepLine (q : QData) (line : List Char) : QData :=
  if startsWith line qLit then
    { q with question := pyStrip (removeAll qLit line) }
  else if optShape (pyStrip line) then
    { q with options := q.options ++ [pyStrip line] }
  else if startsWith line ansLit then
    { q with answer := pyUpper (pyStrip (removeAll ansLit line)) }
  else q

/-- Scan one block: `block.strip().split("\n")`, then fold the line
classifier over the lines starting from the empty `q_data`. -/
def parseBlock (block : List Char) : QData :=
  (splitOnNl (pyStrip block)).foldl stepLine ⟨[], [], []⟩

/-- The minimal acceptance check at the end of a block:
`if q_data["question"] and q_data["options"] and q_data["answer"]`. -/
def checkBlock (block : List Char) : Option QData :=
  let q := parseBlock block
  if !q.question.isEmpty && !q.options.isEmpty && !q.answer.isEmpty then
    some q
  else
    none

/-- `parse_questions(raw_text)`: split the stripped text on blank lines
and keep every block that passes the minimal check, in block order. -/
def parse_questions (raw_text : List Char) : List QData :=
  (splitOnNlNl (pyStrip raw_text)).filterMap checkBlock

/-- The fixed prompt template text before `{quiz_level}` in
`fetch_questions`. -/
def promptHead : List Char :=
  ("\n    You are an expert in creating multiple-choice quizzes.\n    Based on the following text, generate 5 multiple-choice questions with 4 answer options each at a ").toList

/-- The template text between `{quiz_level}` and `{text_content}`. -/
def promptMid : List Char :=
  (" difficulty level.\n\n    Text: ").toList

/-- The template text after `{text_content}`: the output grammar shown to
the model. -/
def promptTail : List Char :=
  ("\n\n    Format:\n    Question: [Question Text]\n    A) [Option A]\n    B) [Option B]\n    C) [Option C]\n    D) [Option D]\n    Answer: [Correct Option Letter]\n    ").toList

/-- The f-string `prompt` built at the top of `fetch_questions`, embedding
`text_content` and `quiz_level` into the fixed template. -/
def buildPrompt (text_content quiz_level : List Char) : List Char :=
  promptHead ++ quiz_level ++ promptMid ++ text_content ++ promptTail

/-- Outcome of the external model call: `ok raw` is an HTTP 200 response
whose body carries generated text `raw`; `err` is any non-success status,
missing `candidates` field, or raised exception. -/
inductive ApiResult
  | ok (raw : List Char)
  | err
deriving DecidableEq, Repr

/-- `fetch_questions`: on a successful call, parse the generated text
(possibly to an empty list); on any failure, return `None`. -/
def fetch_questions (text_content quiz_level : List Char) (api : ApiResult) :
    Option (List QData) :=
  let _prompt := buildPrompt text_content quiz_level
  match api with
  | .ok raw => some (parse_questions raw)
  | .err => none

/-- User-facing messages surfaced by `main`. -/
inductive Msg
  | enterContent
  | generating
  | couldNotGenerate
deriving DecidableEq, Repr

/-- Line 139 of `main`: the selectbox value is lowercased before being
passed to `fetch_questions`. -/
def levelParam (selected : List Char) : List Char := pyLower selected

/-- One run of `main`'s body after the widgets are read: given the stored
`st.session_state["questions"]` (or `none`), whether the Generate button
was clicked, the content, the selected level and the API outcome, return
the new session store, the surfaced messages, and whether `display_quiz`
runs on this pass. -/
def mainStep (stq : Option (List QData)) (clicked : Bool)
    (text_content levelSelected : List Char) (api : ApiResult) :
    Option (List QData) × List Msg × Bool :=
  if clicked then
    if (pyStrip text_content).isEmpty then
      (stq, [Msg.enterContent], false)
    else
      match fetch_questions text_content (levelParam levelSelected) api with
      | none => (stq, [Msg.generating, Msg.couldNotGenerate], false)
      | some [] => (stq, [Msg.generating, Msg.couldNotGenerate], false)
      | some qs => (some qs, [Msg.generating], true)
  else
    (stq, [], stq.isSome)

/-- Python truthiness of a radio selection: `None` and the empty string
are falsy. -/
def pyTruthy : Option (List Char) → Bool
  | none => false
  | some l => !l.isEmpty

/-- The scoring loop of `display_quiz`: starting from `score = 0`, walk
`zip(questions, selected_answers)` and increment when
`user_answer.upper() == q["answer"]`. -/
def quizScore (qs : List QData) (sels : List (List Char)) : Nat :=
  (qs.zip sels).foldl (fun acc p => if pyUpper p.2 == p.1.answer then acc + 1 else acc) 0

/-- Per-question correctness marks: the branch condition
`user_answer.upper() == q["answer"]` for each zipped pair. -/
def gradeFlags (qs : List QData) (sels : List (List Char)) : List Bool :=
  (qs.zip sels).map fun p => pyUpper p.2 == p.1.answer

/-- `next((opt for opt in q["options"] if opt.startswith(correct)), "Not found")`. -/
def correctOptionText (q : QData) : List Char :=
  ((q.options.find? fun opt => startsWith opt q.answer).getD "Not found".toList)

/-- Result of pressing Submit: either the wholesale rejection (any
unanswered question) or a grading with aggregate score and denominator. -/
inductive SubmitResult
  | rejected
  | graded (score : Nat) (total : Nat)
deriving DecidableEq, Repr

/-- The submit path of `display_quiz`: if any selection is falsy, warn and
return without grading; otherwise grade the first characters
(`selected[0]`) of the selected option strings and use
`len(questions)` as the denominator. -/
def submitQuiz (qs : List QData) (sels : List (Option (List Char))) : SubmitResult :=
  if sels.all pyTruthy then
    SubmitResult.graded (quizScore qs (sels.map fun s => (s.getD []).take 1)) qs.length
  else
    SubmitResult.rejected

/-- The encouragement-message ladder at the end of `display_quiz`, with
the float thresholds `len * 0.7` and `len * 0.4` modelled as exact
rationals: 3 = perfect-score message, 2 = high tier, 1 = mid tier,
0 = low tier. -/
def feedbackTier (score total : Nat) : Nat :=
  if score = total then 3
  else if (total : ℚ) * (7 / 10) ≤ (score : ℚ) then 2
  else if (total : ℚ) * (4 / 10) ≤ (score : ℚ) then 1
  else 0

/-- Modelled from the spec: the feedback tier as a pure function of the
ratio `score/total`, evaluated in priority order with inclusive
boundaries (spec section 4.3). -/
def ratioTier (r : ℚ) : Nat :=
  if r = 1 then 3
  else if 7 / 10 ≤ r then 2
  else if 4 / 10 ≤ r then 1
  else 0

/-- One question block of the output grammar of section 4.2/`fetch_questions`:
a `Question:` line, four option lines `A)`–`D)`, an `Answer:` line. -/
structure QBlock where
  qtext : List Char
  optA : List Char
  optB : List Char
  optC : List Char
  optD : List Char
  ansLetter : Char
deriving Repr, DecidableEq

/-- An option line `<lab>) <text>` of the grammar. -/
def optLine (lab : Char) (t : List Char) : List Char := lab :: ')' :: ' ' :: t

/-- Render one block exactly in the grammar of the prompt template. -/
def renderBlock (b : QBlock) : List Char :=
  qLit ++ (' ' :: b.qtext) ++
  '\n' :: optLine 'A' b.optA ++
  '\n' :: optLine 'B' b.optB ++
  '\n' :: optLine 'C' b.optC ++
  '\n' :: optLine 'D' b.optD ++
  '\n' :: (ansLit ++ [' ', b.ansLetter])

/-- Render a sequence of blocks separated by one blank line each. -/
def renderBlocks : List QBlock → List Char
  | [] => []
  | [b] => renderBlock b
  | b :: b2 :: bs => renderBlock b ++ '\n' :: '\n' :: renderBlocks (b2 :: bs)

/-- `l` contains no newline character. -/
def noNl (l : List Char) : Bool := l.all fun c => !(c == '\n')

/-- `l` contains no two consecutive newline characters. -/
def noNlNl : List Char → Bool
  | [] => true
  | [_] => true
  | c1 :: c2 :: t => !(c1 == '\n' && c2 == '\n') && noNlNl (c2 :: t)

/-- The answer letter of a grammar-conformant block: one of `A`–`D`,
upper or lower case. -/
def letterOK (c : Char) : Bool :=
  c == 'A' || c == 'B' || c == 'C' || c == 'D' ||
  c == 'a' || c == 'b' || c == 'c' || c == 'd'

/-- Well-formedness of a block under the output grammar as the spec
states it: every field is a single line, the question text is non-blank,
and the answer is an option letter. -/
def GrammarWF (b : QBlock) : Bool :=
  noNl b.qtext && noNl b.optA && noNl b.optB && noNl b.optC && noNl b.optD &&
  !(pyStrip b.qtext).isEmpty && letterOK b.ansLetter

/-- Well-formedness strengthened by the proviso the parser actually
needs: deleting every occurrence of the literal `"Question:"` from the
question text must not leave it blank (`line.replace("Question:", "")`
deletes interior occurrences too). -/
def ParseWF (b : QBlock) : Bool :=
  GrammarWF b && !(pyStrip (removeAll qLit b.qtext)).isEmpty

/-- The `QData` that `parse_questions` produces from one rendered
well-formed block. -/
def blockToQ (b : QBlock) : QData :=
  { question := pyStrip (removeAll qLit b.qtext)
  , options := [pyStrip (optLine 'A' b.optA), pyStrip (optLine 'B' b.optB),
                pyStrip (optLine 'C' b.optC), pyStrip (optLine 'D' b.optD)]
  , answer := [upChar b.ansLetter] }

/-- The invariant maintained by the block scanner: question and answer
are stripped, the answer is already uppercased, and every captured option
line starts with an option label. -/
def QInv (q : QData) : Prop :=
  pyStrip q.question = q.question ∧ (∀ o ∈ q.options, optShape o = true) ∧
  pyStrip q.answer = q.answer ∧ pyUpper q.answer = q.answer

/-- A grammar-conformant block whose question text is the literal
`"Question:"`. -/
def cexBlock : QBlock :=
  { qtext := "Question:".toList, optA := "1".toList, optB := "2".toList,
    optC := "3".toList, optD := "4".toList, ansLetter := 'A' }

/-- An ordinary well-formed block. -/
def wfBlock : QBlock :=
  { qtext := "What is 2+2?".toList, optA := "3".toList, optB := "4".toList,
    optC := "5".toList, optD := "6".toList, ansLetter := 'B' }

/-- A sample parsed question with stored answer `"B"`. -/
def qB : QData :=
  { question := "What is 2+2?".toList,
    options := ["A) 3".toList, "B) 4".toList], answer := "B".toList }

/-- A sample parsed question whose stored answer letter `"E"` matches
none of its option labels. -/
def qE : QData :=
  { question := "Q?".toList,
    options := ["A) w".toList, "B) x".toList, "C) y".toList, "D) z".toList],
    answer := "E".toList }

/-- A sample question standing for a previously generated QuizSet. -/
def sampleQ : QData :=
  { question := "Old?".toList, options := ["A) x".toList], answer := "A".toList }

/-! ## Lemmas about the string primitives -/

theorem dropWhile_dropWhile (p : Char → Bool) (l : List Char) :
    (l.dropWhile p).dropWhile p = l.dropWhile p := by
  induction l with
  | nil => rfl
  | cons a t ih =>
    by_cases h : p a
    · simp [List.dropWhile_cons, h, ih]
    · simp [List.dropWhile_cons, h]

theorem lstrip_idem (l : List Char) : lstrip (lstrip l) = lstrip l :=
  dropWhile_dropWhile pyIsSpace l

theorem rstrip_idem (l : List Char) : rstrip (rstrip l) = rstrip l := by
  simp only [rstrip, List.reverse_reverse]
  rw [dropWhile_dropWhile]

theorem lstrip_shape (l : List Char) :
    lstrip l = [] ∨ ∃ a t, lstrip l = a :: t ∧ pyIsSpace a = false := by
  induction l with
  | nil => exact Or.inl rfl
  | cons a t ih =>
    by_cases h : pyIsSpace a
    · simpa [lstrip, List.dropWhile_cons, h] using ih
    · right
      exact ⟨a, t, by simp [lstrip, List.dropWhile_cons, h], by simpa using h⟩

theorem rstrip_cons (c : Char) (t : List Char) :
    rstrip (c :: t) =
      if rstrip t = [] then (if pyIsSpace c then [] else [c]) else c :: rstrip t := by
  by_cases h : t.reverse.dropWhile pyIsSpace = []
  · have ht : rstrip t = [] := by simp [rstrip, h]
    by_cases hc : pyIsSpace c <;>
      simp [rstrip, List.reverse_cons, List.dropWhile_append, h, ht, hc,
        List.dropWhile_cons]
  · have ht : ¬ rstrip t = [] := by simp [rstrip, h]
    simp [rstrip, List.reverse_cons, List.dropWhile_append, h, ht,
      List.isEmpty_eq_false.mpr h]

theorem lstrip_of_head (x : List Char)
    (hx : x = [] ∨ ∃ a t, x = a :: t ∧ pyIsSpace a = false) :
    lstrip x = x := by
  rcases hx with rfl | ⟨a, t, rfl, ha⟩
  · rfl
  · simp [lstrip, List.dropWhile_cons, ha]

theorem lstrip_rstrip (x : List Char)
    (hx : x = [] ∨ ∃ a t, x = a :: t ∧ pyIsSpace a = false) :
    lstrip (rstrip x) = rstrip x := by
  rcases hx with rfl | ⟨a, t, rfl, ha⟩
  · rfl
  · rw [rstrip_cons]
    split
    · simp [lstrip, List.dropWhile_cons, ha]
    · simp [lstrip, List.dropWhile_cons, ha]

theorem pyStrip_idem (l : List Char) : pyStrip (pyStrip l) = pyStrip l := by
  simp only [pyStrip]
  rw [lstrip_rstrip (lstrip l) (lstrip_shape l), rstrip_idem]

theorem pyStrip_cons_space {c : Char} (hc : pyIsSpace c = true) (l : List Char) :
    pyStrip (c :: l) = pyStrip l := by
  simp [pyStrip, lstrip, List.dropWhile_cons, hc]

theorem lstrip_eq_self {l : List Char}
    (h1 : ∀ c, l.head? = some c → pyIsSpace c = false) : lstrip l = l := by
  cases l with
  | nil => rfl
  | cons a t => simp [lstrip, List.dropWhile_cons, h1 a rfl]

theorem rstrip_eq_self {l : List Char}
    (h2 : ∀ c, l.getLast? = some c → pyIsSpace c = false) : rstrip l = l := by
  have : l.reverse.dropWhile pyIsSpace = l.reverse := by
    cases hr : l.reverse with
    | nil => rfl
    | cons a t =>
      have : l.getLast? = some a := by
        rw [List.getLast?_eq_head?_reverse, hr]; rfl
      simp [List.dropWhile_cons, h2 a this]
  simp [rstrip, this]

theorem pyStrip_eq_self {l : List Char}
    (h1 : ∀ c, l.head? = some c → pyIsSpace c = false)
    (h2 : ∀ c, l.getLast? = some c → pyIsSpace c = false) : pyStrip l = l := by
  rw [pyStrip, lstrip_eq_self h1, rstrip_eq_self h2]

theorem lookupChar_space (tab : List (Char × Char)) (c : Char)
    (h : ∀ p ∈ tab, pyIsSpace p.1 = pyIsSpace p.2) :
    pyIsSpace (lookupChar tab c) = pyIsSpace c := by
  induction tab with
  | nil => rfl
  | cons kv rest ih =>
    obtain ⟨k, v⟩ := kv
    by_cases hc : c = k
    · subst hc
      simp only [lookupChar, if_pos rfl]
      exact (h (c, v) (by simp)).symm
    · simp only [lookupChar, if_neg hc]
      exact ih fun p hp => h p (by simp [hp])

theorem lookupChar_ran (tab : List (Char × Char)) (c : Char) :
    lookupChar tab c = c ∨ lookupChar tab c ∈ tab.map Prod.snd := by
  induction tab with
  | nil => exact Or.inl rfl
  | cons kv rest ih =>
    obtain ⟨k, v⟩ := kv
    by_cases hc : c = k
    · subst hc; right; simp [lookupChar]
    · simp only [lookupChar, if_neg hc]
      rcases ih with h | h
      · exact Or.inl h
      · right; simp [h]

theorem pyIsSpace_upChar (c : Char) : pyIsSpace (upChar c) = pyIsSpace c :=
  lookupChar_space upTable c (by decide)

theorem upChar_upChar (c : Char) : upChar (upChar c) = upChar c := by
  rcases lookupChar_ran upTable c with h | h
  · have h' : upChar c = c := h
    rw [h']; exact h'
  · have hfix : ∀ v ∈ upTable.map Prod.snd, lookupChar upTable v = v := by decide
    exact hfix _ h

theorem pyUpper_pyUpper (l : List Char) : pyUpper (pyUpper l) = pyUpper l := by
  induction l with
  | nil => rfl
  | cons a t ih => simpa [pyUpper, upChar_upChar] using ih

theorem pyStrip_pyUpper (l : List Char) :
    pyStrip (pyUpper l) = pyUpper (pyStrip l) := by
  have hco : (pyIsSpace ∘ upChar) = pyIsSpace := funext pyIsSpace_upChar
  simp only [pyStrip, lstrip, rstrip, pyUpper]
  rw [List.dropWhile_map, hco, ← List.map_reverse, List.dropWhile_map, hco,
    ← List.map_reverse]

theorem startsWith_append_self (p r : List Char) : startsWith (p ++ r) p = true := by
  induction p with
  | nil => cases r <;> rfl
  | cons a t ih => simp [startsWith, ih]

theorem removeAllGo_fuel (pat : List Char) :
    ∀ fuel fuel' s, s.length ≤ fuel → s.length ≤ fuel' →
      removeAllGo pat fuel s = removeAllGo pat fuel' s := by
  intro fuel
  induction fuel with
  | zero =>
    intro fuel' s hs _
    have : s = [] := List.length_eq_zero.mp (Nat.le_zero.mp hs)
    subst this
    cases fuel' <;> rfl
  | succ f ih =>
    intro fuel' s hs hs'
    cases s with
    | nil => cases fuel' <;> rfl
    | cons c cs =>
      rw [List.length_cons] at hs hs'
      cases fuel' with
      | zero => omega
      | succ f' =>
        rw [removeAllGo, removeAllGo]
        split
        · rename_i hcond
          have hp : 0 < pat.length := List.length_pos.mpr hcond.1
          apply ih
          · simp only [List.length_drop, List.length_cons]; omega
          · simp only [List.length_drop, List.length_cons]; omega
        · rw [ih f' cs (by omega) (by omega)]

theorem removeAll_nil (pat : List Char) : removeAll pat [] = [] := rfl

theorem removeAll_cons_neg {pat : List Char} {c : Char} {cs : List Char}
    (h : startsWith (c :: cs) pat = false) :
    removeAll pat (c :: cs) = c :: removeAll pat cs := by
  rw [removeAll, List.length_cons, removeAllGo, if_neg (by simp [h])]
  rfl

theorem removeAll_append_self {pat : List Char} (hp : pat ≠ []) (rest : List Char) :
    removeAll pat (pat ++ rest) = removeAll pat rest := by
  rcases List.exists_cons_of_ne_nil hp with ⟨q, qs, rfl⟩
  rw [removeAll, List.cons_append, List.length_cons, removeAllGo,
    if_pos ⟨hp, by rw [← List.cons_append]; exact startsWith_append_self _ _⟩,
    ← List.cons_append, List.drop_left']
  · apply removeAllGo_fuel
    · simp
    · rfl
  · rfl

theorem removeAll_not_occurs {pat s : List Char} (h : occurs pat s = false) :
    removeAll pat s = s := by
  induction s with
  | nil => exact removeAll_nil pat
  | cons c cs ih =>
    rw [occurs, Bool.or_eq_false_iff] at h
    rw [removeAll_cons_neg h.1, ih h.2]

theorem occurs_append_self {pat : List Char} (hp : pat ≠ []) (b : List Char) :
    occurs pat (pat ++ b) = true := by
  rcases List.exists_cons_of_ne_nil hp with ⟨q, qs, rfl⟩
  rw [List.cons_append, occurs, ← List.cons_append, startsWith_append_self]
  rfl

theorem occurs_cons_of {pat s : List Char} (c : Char) (h : occurs pat s = true) :
    occurs pat (c :: s) = true := by
  rw [occurs, h, Bool.or_true]

theorem occurs_append_of {pat s : List Char} (a : List Char)
    (h : occurs pat s = true) : occurs pat (a ++ s) = true := by
  induction a with
  | nil => exact h
  | cons c cs ih => exact occurs_cons_of c ih

theorem occurs_infix {pat : List Char} (hp : pat ≠ []) (a b : List Char) :
    occurs pat (a ++ pat ++ b) = true := by
  rw [List.append_assoc]
  exact occurs_append_of a (occurs_append_self hp b)

/-! ## Lemmas about the line and block splitters -/

theorem noNl_cons {c : Char} {l : List Char} :
    noNl (c :: l) = (!(c == '\n') && noNl l) := by
  simp [noNl]

theorem splitNlAux_noNl {l : List Char} (h : noNl l = true) :
    splitNlAux l = (l, []) := by
  induction l with
  | nil => rfl
  | cons c cs ih =>
    rw [noNl_cons, Bool.and_eq_true] at h
    have hc : ¬ c = '\n' := by simpa using h.1
    simp [splitNlAux, hc, ih h.2]

theorem splitNlAux_append {l1 : List Char} (h : noNl l1 = true) (rest : List Char) :
    splitNlAux (l1 ++ '\n' :: rest) =
      (l1, (splitNlAux rest).1 :: (splitNlAux rest).2) := by
  induction l1 with
  | nil => simp [splitNlAux]
  | cons c cs ih =>
    rw [noNl_cons, Bool.and_eq_true] at h
    have hc : ¬ c = '\n' := by simpa using h.1
    simp [splitNlAux, hc, ih h.2]

theorem splitOnNl_noNl {l : List Char} (h : noNl l = true) :
    splitOnNl l = [l] := by
  simp [splitOnNl, splitNlAux_noNl h]

theorem splitOnNl_append {l1 : List Char} (h : noNl l1 = true) (rest : List Char) :
    splitOnNl (l1 ++ '\n' :: rest) = l1 :: splitOnNl rest := by
  simp [splitOnNl, splitNlAux_append h]

theorem noNlNl_cons_of_ne {c : Char} (hc : (c == '\n') = false) (l : List Char) :
    noNlNl (c :: l) = noNlNl l := by
  cases l <;> simp [noNlNl, hc]

theorem noNl_append_noNlNl {a : List Char} (ha : noNl a = true) (l : List Char) :
    noNlNl (a ++ l) = noNlNl l := by
  induction a with
  | nil => rfl
  | cons c cs ih =>
    rw [noNl_cons, Bool.and_eq_true] at ha
    rw [List.cons_append, noNlNl_cons_of_ne (by simpa using ha.1), ih ha.2]

theorem noNl_noNlNl {l : List Char} (h : noNl l = true) : noNlNl l = true := by
  have := noNl_append_noNlNl h []
  rwa [List.append_nil] at this

theorem noNlNl_nl_cons {d : Char} (hd : (d == '\n') = false) (t : List Char) :
    noNlNl ('\n' :: d :: t) = noNlNl (d :: t) := by
  simp [noNlNl, hd]

theorem splitNlNlAux_noNlNl :
    ∀ l, noNlNl l = true → splitNlNlAux l = (l, [])
  | [], _ => rfl
  | [c], _ => by simp [splitNlNlAux]
  | c1 :: c2 :: t, h => by
    rw [noNlNl, Bool.and_eq_true] at h
    have h1 : ¬ (c1 = '\n' ∧ c2 = '\n') := by
      intro hx
      simp [hx.1, hx.2] at h
    have ih := splitNlNlAux_noNlNl (c2 :: t) h.2
    simp [splitNlNlAux, h1, ih]

theorem splitNlNlAux_chunk :
    ∀ chunk, noNlNl chunk = true → chunk.getLast? ≠ some '\n' → ∀ rest,
      splitNlNlAux (chunk ++ '\n' :: '\n' :: rest) =
        (chunk, (splitNlNlAux rest).1 :: (splitNlNlAux rest).2)
  | [], _, _, rest => by simp [splitNlNlAux]
  | [c], _, hl, rest => by
    have hc : ¬ c = '\n' := by simpa [List.getLast?] using hl
    have hin : splitNlNlAux ('\n' :: '\n' :: rest) =
        ([], (splitNlNlAux rest).1 :: (splitNlNlAux rest).2) := by
      simp [splitNlNlAux]
    simp [splitNlNlAux, hc, hin]
  | c1 :: c2 :: t, hnn, hl, rest => by
    rw [noNlNl, Bool.and_eq_true] at hnn
    have h1 : ¬ (c1 = '\n' ∧ c2 = '\n') := by
      intro hx
      simp [hx.1, hx.2] at hnn
    have hl2 : (c2 :: t).getLast? ≠ some '\n' := by
      rwa [List.getLast?_cons_cons] at hl
    have ih := splitNlNlAux_chunk (c2 :: t) hnn.2 hl2 rest
    rw [List.cons_append] at ih ⊢
    simp only [List.cons_append] at ih ⊢
    simp [splitNlNlAux, h1, ih]

theorem splitOnNlNl_noNlNl {l : List Char} (h : noNlNl l = true) :
    splitOnNlNl l = [l] := by
  simp [splitOnNlNl, splitNlNlAux_noNlNl l h]

theorem splitOnNlNl_append {chunk : List Char} (h : noNlNl chunk = true)
    (hl : chunk.getLast? ≠ some '\n') (rest : List Char) :
    splitOnNlNl (chunk ++ '\n' :: '\n' :: rest) = chunk :: splitOnNlNl rest := by
  simp [splitOnNlNl, splitNlNlAux_chunk chunk h hl rest]

/-! ## The parser on grammar-rendered lines -/

theorem letterOK_not_space {x : Char} (h : letterOK x = true) :
    pyIsSpace x = false := by
  simp only [letterOK, Bool.or_eq_true, beq_iff_eq] at h
  rcases h with (((((((h | h) | h) | h) | h) | h) | h) | h) <;> subst h <;> rfl

theorem letterOK_ne_nl {x : Char} (h : letterOK x = true) : ¬ x = '\n' := by
  simp only [letterOK, Bool.or_eq_true, beq_iff_eq] at h
  rcases h with (((((((h | h) | h) | h) | h) | h) | h) | h) <;> subst h <;> decide

theorem space_not_qLit (qtext : List Char) :
    startsWith (' ' :: qtext) qLit = false := by
  rw [show qLit = 'Q' :: "uestion:".toList from rfl]
  simp [startsWith]

theorem stepLine_qline (q : QData) (qtext : List Char) :
    stepLine q (qLit ++ ' ' :: qtext) =
      { q with question := pyStrip (removeAll qLit qtext) } := by
  have hsw : startsWith (qLit ++ ' ' :: qtext) qLit = true :=
    startsWith_append_self _ _
  have hr : removeAll qLit (qLit ++ ' ' :: qtext) = ' ' :: removeAll qLit qtext := by
    rw [removeAll_append_self (by decide), removeAll_cons_neg (space_not_qLit _)]
  have hsp : pyIsSpace ' ' = true := rfl
  simp [stepLine, hsw, hr, pyStrip_cons_space hsp]

theorem stepLine_optLine (q : QData) {lab : Char} (t : List Char)
    (hlab : ('A' ≤ lab && lab ≤ 'D') = true) :
    stepLine q (optLine lab t) =
      { q with options := q.options ++ [pyStrip (optLine lab t)] } := by
  have hQ : (lab == 'Q') = false := by
    by_cases hq : lab = 'Q'
    · subst hq; revert hlab; decide
    · simp [hq]
  have hsw : startsWith (optLine lab t) qLit = false := by
    rw [show qLit = 'Q' :: "uestion:".toList from rfl]
    simp [optLine, startsWith, hQ]
  have hsp : pyIsSpace lab = false := by
    by_cases h1 : pyIsSpace lab = true
    · simp only [pyIsSpace, Bool.or_eq_true, beq_iff_eq] at h1
      rcases h1 with ((((h1 | h1) | h1) | h1) | h1) | h1 <;> subst h1 <;>
        revert hlab <;> decide
    · simpa using h1
  have hshape : optShape (pyStrip (optLine lab t)) = true := by
    have hls : lstrip (optLine lab t) = optLine lab t := by
      simp [optLine, lstrip, List.dropWhile_cons, hsp]
    rw [pyStrip, hls, optLine, rstrip_cons]
    have h2 : rstrip (')' :: ' ' :: t) ≠ [] ∧
        ∃ z, rstrip (')' :: ' ' :: t) = ')' :: z := by
      rw [rstrip_cons]
      split
      · exact ⟨by decide, [], rfl⟩
      · exact ⟨by simp, _, rfl⟩
    rcases h2 with ⟨hne, z, hz⟩
    rw [if_neg hne, hz]
    simp [optShape, hlab]
  simp [stepLine, hsw, hshape]

theorem stepLine_ansline (q : QData) {x : Char} (hx : letterOK x = true) :
    stepLine q (ansLit ++ [' ', x]) = { q with answer := [upChar x] } := by
  have hxs : pyIsSpace x = false := letterOK_not_space hx
  have hswq : startsWith (ansLit ++ [' ', x]) qLit = false := rfl
  have hlast : (ansLit ++ [' ', x]).getLast? = some x := by
    rw [show ansLit ++ [' ', x] = (ansLit ++ [' ']) ++ [x] by simp]
    exact List.getLast?_concat _
  have hopt : optShape (pyStrip (ansLit ++ [' ', x])) = false := by
    have hps : pyStrip (ansLit ++ [' ', x]) = ansLit ++ [' ', x] := by
      apply pyStrip_eq_self
      · intro c hc
        have hh : (ansLit ++ [' ', x]).head? = some 'A' := rfl
        rw [hh] at hc
        injection hc with hc
        subst hc; rfl
      · intro c hc
        rw [hlast] at hc
        injection hc with hc
        subst hc; exact hxs
    rw [hps]; rfl
  have hswa : startsWith (ansLit ++ [' ', x]) ansLit = true :=
    startsWith_append_self _ _
  have hx1 : startsWith (' ' :: [x]) ansLit = false := by
    rw [show ansLit = 'A' :: "nswer:".toList from rfl]
    simp [startsWith]
  have hx2 : startsWith [x] ansLit = false := by
    rw [show ansLit = 'A' :: "nswer:".toList from rfl]
    simp [startsWith]
  have hrem : removeAll ansLit (ansLit ++ [' ', x]) = [' ', x] := by
    rw [removeAll_append_self (by decide), removeAll_cons_neg hx1,
      removeAll_cons_neg hx2, removeAll_nil]
  have hstrip : pyStrip [' ', x] = [x] := by
    have hsp : pyIsSpace ' ' = true := rfl
    rw [pyStrip_cons_space hsp]
    apply pyStrip_eq_self
    · intro c hc
      injection hc with hc
      subst hc; exact hxs
    · intro c hc
      injection hc with hc
      subst hc; exact hxs
  simp [stepLine, hswq, hopt, hswa, hrem, hstrip, pyUpper]

/-! ## The parser on whole rendered blocks -/

theorem noNl_append (a b : List Char) : noNl (a ++ b) = (noNl a && noNl b) := by
  simp [noNl, List.all_append]

theorem GrammarWF_parts {b : QBlock} (h : GrammarWF b = true) :
    noNl b.qtext = true ∧ noNl b.optA = true ∧ noNl b.optB = true ∧
    noNl b.optC = true ∧ noNl b.optD = true ∧
    (pyStrip b.qtext).isEmpty = false ∧ letterOK b.ansLetter = true := by
  simp only [GrammarWF, Bool.and_eq_true, Bool.not_eq_true'] at h
  tauto

theorem renderBlock_assoc (b : QBlock) :
    renderBlock b =
      (qLit ++ ' ' :: b.qtext) ++ '\n' ::
        (optLine 'A' b.optA ++ '\n' ::
          (optLine 'B' b.optB ++ '\n' ::
            (optLine 'C' b.optC ++ '\n' ::
              (optLine 'D' b.optD ++ '\n' ::
                (ansLit ++ [' ', b.ansLetter]))))) := by
  simp [renderBlock, optLine]

theorem noNl_qline {b : QBlock} (h : GrammarWF b = true) :
    noNl (qLit ++ ' ' :: b.qtext) = true := by
  obtain ⟨h1, -, -, -, -, -, -⟩ := GrammarWF_parts h
  rw [show qLit ++ ' ' :: b.qtext = (qLit ++ [' ']) ++ b.qtext by simp]
  rw [noNl_append, h1]
  decide

theorem noNl_optLine {t : List Char} (lab : Char) (hlab : ¬ lab = '\n')
    (ht : noNl t = true) : noNl (optLine lab t) = true := by
  rw [optLine, noNl_cons, noNl_cons, noNl_cons, ht]
  simp [hlab]

theorem noNl_ansline {x : Char} (hx : letterOK x = true) :
    noNl (ansLit ++ [' ', x]) = true := by
  rw [noNl_append]
  have h1 : noNl ansLit = true := by decide
  have h2 : noNl [' ', x] = true := by
    simp [noNl]
    exact fun h => absurd h (letterOK_ne_nl hx)
  rw [h1, h2]
  rfl

theorem splitOnNl_lines (l1 l2 l3 l4 l5 l6 : List Char)
    (h1 : noNl l1 = true) (h2 : noNl l2 = true) (h3 : noNl l3 = true)
    (h4 : noNl l4 = true) (h5 : noNl l5 = true) (h6 : noNl l6 = true) :
    splitOnNl (l1 ++ '\n' :: (l2 ++ '\n' :: (l3 ++ '\n' ::
      (l4 ++ '\n' :: (l5 ++ '\n' :: l6))))) = [l1, l2, l3, l4, l5, l6] := by
  rw [splitOnNl_append h1, splitOnNl_append h2, splitOnNl_append h3,
    splitOnNl_append h4, splitOnNl_append h5, splitOnNl_noNl h6]

theorem renderBlock_getLast (b : QBlock) :
    (renderBlock b).getLast? = some b.ansLetter := by
  rw [show renderBlock b = (qLit ++ ' ' :: b.qtext ++ '\n' :: optLine 'A' b.optA ++
    '\n' :: optLine 'B' b.optB ++ '\n' :: optLine 'C' b.optC ++
    '\n' :: optLine 'D' b.optD ++ '\n' :: ansLit ++ [' ']) ++ [b.ansLetter] by
      simp [renderBlock]]
  exact List.getLast?_concat _

theorem renderBlock_head (b : QBlock) :
    (renderBlock b).head? = some 'Q' := by
  rw [renderBlock, show qLit = 'Q' :: "uestion:".toList from rfl]
  rfl

theorem pyStrip_renderBlock {b : QBlock} (h : GrammarWF b = true) :
    pyStrip (renderBlock b) = renderBlock b := by
  obtain ⟨-, -, -, -, -, -, h7⟩ := GrammarWF_parts h
  apply pyStrip_eq_self
  · intro c hc
    rw [renderBlock_head] at hc
    injection hc with hc
    subst hc; rfl
  · intro c hc
    rw [renderBlock_getLast] at hc
    injection hc with hc
    subst hc
    exact letterOK_not_space h7

theorem parseBlock_renderBlock {b : QBlock} (h : GrammarWF b = true) :
    parseBlock (renderBlock b) = blockToQ b := by
  obtain ⟨h1, h2, h3, h4, h5, h6, h7⟩ := GrammarWF_parts h
  rw [parseBlock, pyStrip_renderBlock h, renderBlock_assoc]
  rw [splitOnNl_lines _ _ _ _ _ _ (noNl_qline h)
    (noNl_optLine 'A' (by decide) h2) (noNl_optLine 'B' (by decide) h3)
    (noNl_optLine 'C' (by decide) h4) (noNl_optLine 'D' (by decide) h5)
    (noNl_ansline h7)]
  simp only [List.foldl_cons, List.foldl_nil]
  rw [stepLine_qline, stepLine_optLine _ _ (by decide),
    stepLine_optLine _ _ (by decide), stepLine_optLine _ _ (by decide),
    stepLine_optLine _ _ (by decide), stepLine_ansline _ h7]
  simp [blockToQ]

theorem checkBlock_renderBlock {b : QBlock} (h : ParseWF b = true) :
    checkBlock (renderBlock b) = some (blockToQ b) := by
  rw [ParseWF, Bool.and_eq_true] at h
  rw [checkBlock, parseBlock_renderBlock h.1]
  have hq : (blockToQ b).question.isEmpty = false := by
    rw [blockToQ]
    simpa using h.2
  rw [hq]
  rfl

/-! ## Splitting a rendered multi-block reply -/

theorem noNlNl_sep {line : List Char} (h : noNl line = true) (hne : line ≠ [])
    (rest : List Char) : noNlNl ('\n' :: (line ++ rest)) = noNlNl rest := by
  rcases List.exists_cons_of_ne_nil hne with ⟨c, cs, rfl⟩
  rw [noNl_cons, Bool.and_eq_true] at h
  rw [List.cons_append, noNlNl_nl_cons (by simpa using h.1),
    ← List.cons_append, noNl_append_noNlNl (by rw [noNl_cons, h.2]; simpa using h.1)]

theorem noNlNl_renderBlock {b : QBlock} (h : GrammarWF b = true) :
    noNlNl (renderBlock b) = true := by
  obtain ⟨h1, h2, h3, h4, h5, h6, h7⟩ := GrammarWF_parts h
  rw [renderBlock_assoc]
  rw [noNl_append_noNlNl (noNl_qline h)]
  rw [noNlNl_sep (noNl_optLine 'A' (by decide) h2) (by simp [optLine])]
  rw [noNlNl_sep (noNl_optLine 'B' (by decide) h3) (by simp [optLine])]
  rw [noNlNl_sep (noNl_optLine 'C' (by decide) h4) (by simp [optLine])]
  rw [noNlNl_sep (noNl_optLine 'D' (by decide) h5) (by simp [optLine])]
  rw [show ansLit ++ [' ', b.ansLetter] =
    'A' :: ("nswer:".toList ++ [' ', b.ansLetter]) from rfl]
  rw [noNlNl_nl_cons (by decide)]
  apply noNl_noNlNl
  rw [show 'A' :: ("nswer:".toList ++ [' ', b.ansLetter]) =
    ansLit ++ [' ', b.ansLetter] from rfl]
  exact noNl_ansline h7

theorem renderBlock_ne_nil (b : QBlock) : renderBlock b ≠ [] := by
  intro hh
  have hq := renderBlock_head b
  rw [hh] at hq
  simp at hq

theorem renderBlocks_head (b : QBlock) (bs : List QBlock) :
    (renderBlocks (b :: bs)).head? = some 'Q' := by
  cases bs with
  | nil => exact renderBlock_head b
  | cons b2 bs =>
    have hr : renderBlocks (b :: b2 :: bs) =
        renderBlock b ++ '\n' :: '\n' :: renderBlocks (b2 :: bs) := rfl
    rw [hr, List.head?_append, renderBlock_head b]
    rfl

theorem renderBlocks_ne_nil (b : QBlock) (bs : List QBlock) :
    renderBlocks (b :: bs) ≠ [] := by
  intro hh
  have hq := renderBlocks_head b bs
  rw [hh] at hq
  simp at hq

theorem renderBlocks_getLast :
    ∀ bs, (∀ b ∈ bs, GrammarWF b = true) →
      ∀ c, (renderBlocks bs).getLast? = some c → pyIsSpace c = false
  | [], _, c, hc => by simp [renderBlocks] at hc
  | [b], h, c, hc => by
    rw [show renderBlocks [b] = renderBlock b from rfl, renderBlock_getLast] at hc
    injection hc with hc
    subst hc
    obtain ⟨-, -, -, -, -, -, h7⟩ := GrammarWF_parts (h b (by simp))
    exact letterOK_not_space h7
  | b :: b2 :: bs, h, c, hc => by
    have hne := renderBlocks_ne_nil b2 bs
    rcases List.exists_cons_of_ne_nil hne with ⟨x, xs, hx⟩
    have hr : renderBlocks (b :: b2 :: bs) =
        renderBlock b ++ '\n' :: '\n' :: renderBlocks (b2 :: bs) := rfl
    rw [hr, List.getLast?_append, hx, List.getLast?_cons_cons,
      List.getLast?_cons_cons] at hc
    have hs : (x :: xs).getLast?.isSome := List.getLast?_isSome.mpr (by simp)
    rcases Option.isSome_iff_exists.mp hs with ⟨y, hy⟩
    rw [hy, Option.or_some] at hc
    injection hc with hc
    subst hc
    exact renderBlocks_getLast (b2 :: bs) (fun q hq => h q (by simp [hq])) y
      (by rw [hx, hy])

theorem renderBlock_getLast_ne_nl {b : QBlock} (h : GrammarWF b = true) :
    (renderBlock b).getLast? ≠ some '\n' := by
  obtain ⟨-, -, -, -, -, -, h7⟩ := GrammarWF_parts h
  rw [renderBlock_getLast]
  intro hc
  injection hc with hc
  exact letterOK_ne_nl h7 hc

theorem splitOnNlNl_renderBlocks :
    ∀ bs, (∀ b ∈ bs, GrammarWF b = true) → bs ≠ [] →
      splitOnNlNl (renderBlocks bs) = bs.map renderBlock
  | [], _, hne => absurd rfl hne
  | [b], h, _ => by
    rw [show renderBlocks [b] = renderBlock b from rfl,
      splitOnNlNl_noNlNl (noNlNl_renderBlock (h b (by simp)))]
    rfl
  | b :: b2 :: bs, h, _ => by
    have hr : renderBlocks (b :: b2 :: bs) =
        renderBlock b ++ '\n' :: '\n' :: renderBlocks (b2 :: bs) := rfl
    rw [hr, splitOnNlNl_append (noNlNl_renderBlock (h b (by simp)))
      (renderBlock_getLast_ne_nl (h b (by simp))),
      splitOnNlNl_renderBlocks (b2 :: bs) (fun q hq => h q (by simp [hq])) (by simp)]
    rfl

theorem filterMap_checkBlock_map :
    ∀ l : List QBlock, (∀ b ∈ l, ParseWF b = true) →
      (l.map renderBlock).filterMap checkBlock = l.map blockToQ
  | [], _ => rfl
  | b :: bs, h => by
    rw [List.map_cons, List.filterMap_cons,
      checkBlock_renderBlock (h b (by simp)),
      filterMap_checkBlock_map bs (fun q hq => h q (by simp [hq]))]
    rfl

theorem ParseWF_GrammarWF {b : QBlock} (h : ParseWF b = true) :
    GrammarWF b = true := by
  rw [ParseWF, Bool.and_eq_true] at h
  exact h.1

theorem parse_renderBlocks (bs : List QBlock)
    (h : ∀ b ∈ bs, ParseWF b = true) :
    parse_questions (renderBlocks bs) = bs.map blockToQ := by
  cases bs with
  | nil => rfl
  | cons b bs' =>
    have hwf : ∀ x ∈ b :: bs', GrammarWF x = true :=
      fun x hx => ParseWF_GrammarWF (h x hx)
    have hps : pyStrip (renderBlocks (b :: bs')) = renderBlocks (b :: bs') := by
      apply pyStrip_eq_self
      · intro c hc
        rw [renderBlocks_head] at hc
        injection hc with hc
        subst hc; rfl
      · intro c hc
        exact renderBlocks_getLast (b :: bs') hwf c hc
    rw [parse_questions, hps, splitOnNlNl_renderBlocks _ hwf (by simp),
      filterMap_checkBlock_map _ h]

/-! ## The scanner invariant and membership in the parse result -/

theorem stepLine_inv {q : QData} (hq : QInv q) (line : List Char) :
    QInv (stepLine q line) := by
  unfold stepLine
  split_ifs with h1 h2 h3
  · exact ⟨pyStrip_idem _, hq.2.1, hq.2.2.1, hq.2.2.2⟩
  · refine ⟨hq.1, ?_, hq.2.2.1, hq.2.2.2⟩
    intro o ho
    rw [List.mem_append] at ho
    rcases ho with ho | ho
    · exact hq.2.1 o ho
    · rw [List.mem_singleton] at ho
      subst ho
      exact h2
  · refine ⟨hq.1, hq.2.1, ?_, ?_⟩
    · rw [pyStrip_pyUpper, pyStrip_idem]
    · exact pyUpper_pyUpper _
  · exact hq

theorem foldl_stepLine_inv (lines : List (List Char)) :
    ∀ {q : QData}, QInv q → QInv (lines.foldl stepLine q) := by
  induction lines with
  | nil => exact fun hq => hq
  | cons l ls ih =>
    intro q hq
    exact ih (stepLine_inv hq l)

theorem parseBlock_inv (blk : List Char) : QInv (parseBlock blk) :=
  foldl_stepLine_inv _ ⟨rfl, by simp, rfl, rfl⟩

theorem checkBlock_eq_some {blk : List Char} {q : QData} :
    checkBlock blk = some q ↔
      parseBlock blk = q ∧ ¬q.question = [] ∧ ¬q.options = [] ∧ ¬q.answer = [] := by
  rw [checkBlock]
  split
  · rename_i hcond
    simp only [Bool.and_eq_true, Bool.not_eq_true', List.isEmpty_eq_false] at hcond
    constructor
    · intro hs
      injection hs with hs
      exact ⟨hs, hs ▸ hcond.1.1, hs ▸ hcond.1.2, hs ▸ hcond.2⟩
    · intro ⟨hs, _, _, _⟩
      rw [hs]
  · rename_i hcond
    simp only [Bool.and_eq_true, Bool.not_eq_true', List.isEmpty_eq_false] at hcond
    constructor
    · intro hs
      cases hs
    · intro ⟨hs, hq, ho, ha⟩
      subst hs
      exact absurd ⟨⟨hq, ho⟩, ha⟩ hcond

theorem mem_parse_questions {raw : List Char} {q : QData} :
    q ∈ parse_questions raw ↔
      ∃ blk ∈ splitOnNlNl (pyStrip raw), parseBlock blk = q ∧
        ¬q.question = [] ∧ ¬q.options = [] ∧ ¬q.answer = [] := by
  rw [parse_questions, List.mem_filterMap]
  constructor
  · rintro ⟨blk, hblk, hcb⟩
    exact ⟨blk, hblk, checkBlock_eq_some.mp hcb⟩
  · rintro ⟨blk, hblk, hcb⟩
    exact ⟨blk, hblk, checkBlock_eq_some.mpr hcb⟩

/-! ## Grading and feedback lemmas -/

theorem foldl_score (l : List (QData × List Char)) (n : Nat) :
    l.foldl (fun acc p => if pyUpper p.2 == p.1.answer then acc + 1 else acc) n =
      n + (l.filter fun p => pyUpper p.2 == p.1.answer).length := by
  induction l generalizing n with
  | nil => simp
  | cons p l ih =>
    rw [List.foldl_cons, ih, List.filter_cons]
    by_cases hp : (pyUpper p.2 == p.1.answer) = true
    · simp only [hp, if_pos, List.length_cons]
      omega
    · simp [hp]

theorem count_true_map {α : Type} (p : α → Bool) (l : List α) :
    (l.map p).count true = (l.filter p).length := by
  induction l with
  | nil => rfl
  | cons a l ih =>
    rw [List.map_cons, List.filter_cons]
    by_cases hp : p a = true
    · rw [hp, List.count_cons_self, if_pos rfl, List.length_cons, ih]
    · have hf : p a = false := by simpa using hp
      simp [hf, List.count_cons, ih]

theorem quizScore_count (qs : List QData) (sels : List (List Char)) :
    quizScore qs sels = (gradeFlags qs sels).count true := by
  rw [quizScore, gradeFlags, foldl_score, count_true_map, Nat.zero_add]

theorem feedbackTier_ratio (score total : Nat) (ht : 0 < total) :
    feedbackTier score total = ratioTier ((score : ℚ) / (total : ℚ)) := by
  have ht0 : (total : ℚ) ≠ 0 := by positivity
  have ht' : (0 : ℚ) < total := by positivity
  have h1 : (score = total) ↔ ((score : ℚ) / total = 1) := by
    rw [div_eq_one_iff_eq ht0]
    exact_mod_cast Iff.rfl
  have h2 : ((total : ℚ) * (7 / 10) ≤ score) ↔ (7 / 10 ≤ (score : ℚ) / total) := by
    rw [le_div_iff₀ ht', mul_comm]
  have h3 : ((total : ℚ) * (4 / 10) ≤ score) ↔ (4 / 10 ≤ (score : ℚ) / total) := by
    rw [le_div_iff₀ ht', mul_comm]
  rw [feedbackTier, ratioTier]
  simp only [h1, h2, h3]

theorem feedbackTier_char (score total : Nat) :
    feedbackTier score total =
      if score = total then 3
      else if 7 * total ≤ 10 * score then 2
      else if 4 * total ≤ 10 * score then 1
      else 0 := by
  have h2 : ((total : ℚ) * (7 / 10) ≤ score) ↔ (7 * total ≤ 10 * score) := by
    rw [mul_comm, show (7 : ℚ) / 10 * total = 7 * total / 10 by ring,
      div_le_iff₀ (by norm_num : (0 : ℚ) < 10), mul_comm (score : ℚ) 10]
    exact_mod_cast Iff.rfl
  have h3 : ((total : ℚ) * (4 / 10) ≤ score) ↔ (4 * total ≤ 10 * score) := by
    rw [mul_comm, show (4 : ℚ) / 10 * total = 4 * total / 10 by ring,
      div_le_iff₀ (by norm_num : (0 : ℚ) < 10), mul_comm (score : ℚ) 10]
    exact_mod_cast Iff.rfl
  rw [feedbackTier]
  simp only [h2, h3]

/-! ## Claim theorems -/

/-- Claim C1, counterexample: the block rendered from `cexBlock` follows
the output grammar (its `Question:` line has the non-blank text
`"Question:"`), yet `parse_questions` returns no question for it instead
of one question per block: `line.replace("Question:", "")` deletes the
interior occurrence too and the question text comes out empty. -/
theorem C1_grammar_block_dropped :
    GrammarWF cexBlock = true ∧ [cexBlock].length = 1 ∧
      parse_questions (renderBlocks [cexBlock]) = [] := by
  decide

/-- Claim C1 (amended): for raw text consisting solely of well-formed
grammar blocks separated by blank lines, provided additionally that
deleting every occurrence of the literal `"Question:"` from a block's
question text leaves it non-blank, `parse_questions` returns exactly one
question per block, in block order. -/
theorem C1_one_question_per_block (bs : List QBlock)
    (h : ∀ b ∈ bs, ParseWF b = true) :
    parse_questions (renderBlocks bs) = bs.map blockToQ :=
  parse_renderBlocks bs h

/-- Witness for claim C1 at a concrete one-block reply. -/
theorem C1_one_question_per_block_witness :
    (∀ b ∈ [wfBlock], ParseWF b = true) ∧
      parse_questions (renderBlocks [wfBlock]) = [wfBlock].map blockToQ :=
  ⟨by decide, C1_one_question_per_block [wfBlock] (by decide)⟩

/-- Claim C2: a block contributes to `parse_questions`' result exactly
when the scan leaves a non-empty question, at least one captured option,
and a non-empty answer; a block with two options whose answer letter
`C` matches neither label is still included whole, and blocks missing
the question line, every option line, or the answer line are dropped
entirely. -/
theorem C2_minimal_acceptance :
    (∀ s blk : List Char, blk ∈ splitOnNlNl (pyStrip s) →
      (parseBlock blk ∈ parse_questions s ↔
        ¬(parseBlock blk).question = [] ∧ ¬(parseBlock blk).options = [] ∧
          ¬(parseBlock blk).answer = []))
    ∧ parse_questions ("Question: Capital?\nA) Paris\nB) Rome\nAnswer: C".toList) =
        [⟨"Capital?".toList, ["A) Paris".toList, "B) Rome".toList], "C".toList⟩]
    ∧ parse_questions ("A) x\nB) y\nAnswer: A".toList) = []
    ∧ parse_questions ("Question: Q?\nAnswer: A".toList) = []
    ∧ parse_questions ("Question: Q?\nA) x".toList) = [] := by
  refine ⟨?_, by decide, by decide, by decide, by decide⟩
  intro s blk hblk
  constructor
  · intro hmem
    rcases mem_parse_questions.mp hmem with ⟨blk2, hb2, heq, hq, ho, ha⟩
    exact ⟨hq, ho, ha⟩
  · intro ⟨hq, ho, ha⟩
    exact mem_parse_questions.mpr ⟨blk, hblk, rfl, hq, ho, ha⟩

/-- Witness for claim C2 at a concrete single-block input. -/
theorem C2_minimal_acceptance_witness :
    ("Question: Capital?\nA) Paris\nB) Rome\nAnswer: C".toList ∈
      splitOnNlNl (pyStrip ("Question: Capital?\nA) Paris\nB) Rome\nAnswer: C".toList)))
    ∧ (parseBlock ("Question: Capital?\nA) Paris\nB) Rome\nAnswer: C".toList) ∈
        parse_questions ("Question: Capital?\nA) Paris\nB) Rome\nAnswer: C".toList) ↔
      ¬(parseBlock ("Question: Capital?\nA) Paris\nB) Rome\nAnswer: C".toList)).question = [] ∧
      ¬(parseBlock ("Question: Capital?\nA) Paris\nB) Rome\nAnswer: C".toList)).options = [] ∧
      ¬(parseBlock ("Question: Capital?\nA) Paris\nB) Rome\nAnswer: C".toList)).answer = []) :=
  ⟨by decide, C2_minimal_acceptance.1 _ _ (by decide)⟩

/-- Claim C3: grading marks question `i` correct exactly when the
selected label, uppercased, equals the stored answer; the aggregate
score counts the correct marks and the denominator is the question
count; the `[answer "B"]` quiz graded against selection `B` scores 1/1
with the top-tier message, and against selection `A` scores 0/1 with the
low-tier message. -/
theorem C3_grading_marks :
    (∀ (qs : List QData) (sels : List (List Char))
        (i : Fin (qs.zip sels).length),
      (gradeFlags qs sels).get (Fin.cast (by simp [gradeFlags]) i) =
        (pyUpper ((qs.zip sels).get i).2 == ((qs.zip sels).get i).1.answer))
    ∧ (∀ (qs : List QData) (sels : List (List Char)),
        quizScore qs sels = (gradeFlags qs sels).count true)
    ∧ submitQuiz [qB] [some ("B) 4".toList)] = SubmitResult.graded 1 1
    ∧ feedbackTier 1 1 = 3
    ∧ submitQuiz [qB] [some ("A) 3".toList)] = SubmitResult.graded 0 1
    ∧ feedbackTier 0 1 = 0 := by
  refine ⟨?_, quizScore_count, by decide, by rw [feedbackTier_char]; decide,
    by decide, by rw [feedbackTier_char]; decide⟩
  intro qs sels i
  simp [gradeFlags]

/-- Claim C4: the feedback tier is a pure function of the score ratio,
evaluated in priority order with inclusive boundaries; ratios 1.0, 0.7
and 0.4 hit the top, high and mid tiers, and 0.69 and 0.39 fall to the
next tier down. -/
theorem C4_tier_pure_function_of_ratio :
    (∀ score total : Nat, 0 < total →
      feedbackTier score total = ratioTier ((score : ℚ) / (total : ℚ)))
    ∧ feedbackTier 10 10 = 3 ∧ feedbackTier 7 10 = 2 ∧ feedbackTier 4 10 = 1
    ∧ feedbackTier 69 100 = 1 ∧ feedbackTier 39 100 = 0 := by
  refine ⟨feedbackTier_ratio, ?_, ?_, ?_, ?_, ?_⟩ <;> rw [feedbackTier_char] <;> decide

/-- Witness for claim C4 at score 7 of 10. -/
theorem C4_tier_pure_function_of_ratio_witness :
    0 < 10 ∧ feedbackTier 7 10 = ratioTier (((7 : Nat) : ℚ) / ((10 : Nat) : ℚ)) :=
  ⟨by decide, C4_tier_pure_function_of_ratio.1 7 10 (by decide)⟩

set_option maxRecDepth 8192 in
/-- Claim C5, counterexample: `main` lowercases the selected level
(line 139), so for the selection `Medium` the prompt contains the
literal `"medium"` but not the literal `"Medium"` the claim asserts. -/
theorem C5_level_not_verbatim :
    occurs ("Medium".toList)
      (buildPrompt ("Photosynthesis converts light into energy.".toList)
        (levelParam ("Medium".toList))) = false
    ∧ occurs ("medium".toList)
      (buildPrompt ("Photosynthesis converts light into energy.".toList)
        (levelParam ("Medium".toList))) = true := by
  constructor <;> decide

/-- Claim C5 (amended): for every non-empty content and selected level,
the prompt embeds the content verbatim and the lowercased level (not the
selected spelling) verbatim. -/
theorem C5_prompt_embeds (content sel : List Char)
    (hc : content ≠ []) (hl : levelParam sel ≠ []) :
    occurs content (buildPrompt content (levelParam sel)) = true ∧
    occurs (levelParam sel) (buildPrompt content (levelParam sel)) = true := by
  constructor
  · exact occurs_infix hc (promptHead ++ levelParam sel ++ promptMid) promptTail
  · have h : buildPrompt content (levelParam sel) =
        promptHead ++ levelParam sel ++ (promptMid ++ content ++ promptTail) := by
      rw [buildPrompt]
      simp [List.append_assoc]
    rw [h]
    exact occurs_infix hl promptHead (promptMid ++ content ++ promptTail)

/-- Witness for claim C5 at the photosynthesis example. -/
theorem C5_prompt_embeds_witness :
    ("Photosynthesis converts light into energy.".toList ≠ ([] : List Char))
    ∧ levelParam ("Medium".toList) ≠ []
    ∧ occurs ("Photosynthesis converts light into energy.".toList)
        (buildPrompt ("Photosynthesis converts light into energy.".toList)
          (levelParam ("Medium".toList))) = true :=
  ⟨by decide, by decide,
    (C5_prompt_embeds ("Photosynthesis converts light into energy.".toList)
      ("Medium".toList) (by decide) (by decide)).1⟩

/-- Claim C6, counterexample: after a failed generation attempt with a
QuizSet loaded from a previous cycle, the session store still holds that
QuizSet — `main` returns early but never clears
`st.session_state["questions"]` — contradicting the claim that no
QuizSet is loaded afterwards. -/
theorem C6_stale_quizset_kept :
    (mainStep (some [sampleQ]) true ("txt".toList) ("Medium".toList)
        ApiResult.err).1 ≠ none
    ∧ (mainStep (some [sampleQ]) true ("txt".toList) ("Medium".toList)
        ApiResult.err).1 = some [sampleQ]
    ∧ Msg.couldNotGenerate ∈ (mainStep (some [sampleQ]) true ("txt".toList)
        ("Medium".toList) ApiResult.err).2.1 := by
  decide

/-- Claim C6 (amended): when the upstream call fails or the parser
yields an empty sequence, the run surfaces the error messages and
renders no quiz, but the session store is returned unchanged: a QuizSet
from a previous generation cycle remains loaded rather than being
cleared. -/
theorem C6_failure_keeps_store (stq : Option (List QData))
    (content level : List Char) (api : ApiResult)
    (hc : (pyStrip content).isEmpty = false)
    (hfail : api = ApiResult.err ∨
      ∃ raw, api = ApiResult.ok raw ∧ parse_questions raw = []) :
    mainStep stq true content level api =
      (stq, [Msg.generating, Msg.couldNotGenerate], false) := by
  rcases hfail with rfl | ⟨raw, rfl, hraw⟩
  · simp [mainStep, hc, fetch_questions]
  · simp [mainStep, hc, fetch_questions, hraw]

/-- Witness for claim C6 at a failed call with a loaded QuizSet. -/
theorem C6_failure_keeps_store_witness :
    ((pyStrip ("txt".toList)).isEmpty = false)
    ∧ mainStep (some [sampleQ]) true ("txt".toList) ("Medium".toList)
        ApiResult.err =
      (some [sampleQ], [Msg.generating, Msg.couldNotGenerate], false) :=
  ⟨by decide, C6_failure_keeps_store (some [sampleQ]) ("txt".toList)
    ("Medium".toList) ApiResult.err (by decide) (Or.inl rfl)⟩

/-- Claim C7: submitting while any question has a falsy (missing)
selection is rejected wholesale: no grading result is produced. -/
theorem C7_partial_submission_rejected (qs : List QData)
    (sels : List (Option (List Char))) (s : Option (List Char))
    (hs : s ∈ sels) (hf : pyTruthy s = false) :
    submitQuiz qs sels = SubmitResult.rejected := by
  have hna : ¬ (sels.all pyTruthy = true) := by
    intro hall
    have h2 := List.all_eq_true.mp hall s hs
    rw [hf] at h2
    cases h2
  rw [submitQuiz, if_neg hna]

/-- Witness for claim C7 at a two-question form with one unanswered. -/
theorem C7_partial_submission_rejected_witness :
    (none ∈ [some ("A) x".toList), none]) ∧ pyTruthy none = false ∧
    submitQuiz [qB] [some ("A) x".toList), none] = SubmitResult.rejected :=
  ⟨by decide, rfl,
    C7_partial_submission_rejected [qB] [some ("A) x".toList), none] none
      (by decide) rfl⟩

/-- Claim C8, counterexample: `qE`'s stored answer `"E"` matches none of
its options, yet grading it against selection `A) w` yields score 0 with
denominator 1 — the question is not excluded from scoring as the claim
requires; only the correct-option display degrades to `"Not found"`. -/
theorem C8_unmatched_not_excluded :
    (∀ o ∈ qE.options, startsWith o qE.answer = false)
    ∧ submitQuiz [qE] [some ("A) w".toList)] = SubmitResult.graded 0 1
    ∧ correctOptionText qE = ("Not found".toList) := by
  decide

/-- Claim C8 (amended): a question whose stored answer matches none of
its options is still graded normally — it counts in the denominator and
is marked by the letter comparison — and the correct-option display
falls back to `"Not found"` without crashing. -/
theorem C8_unmatched_graded (qs : List QData)
    (sels : List (Option (List Char))) (h : sels.all pyTruthy = true) :
    submitQuiz qs sels =
      SubmitResult.graded
        (quizScore qs (sels.map fun s => (s.getD []).take 1)) qs.length
    ∧ ∀ q : QData, (q.options.find? fun o => startsWith o q.answer) = none →
        correctOptionText q = ("Not found".toList) := by
  constructor
  · rw [submitQuiz, if_pos h]
  · intro q hq
    rw [correctOptionText, hq]
    rfl

/-- Witness for claim C8 at the unmatched-answer question. -/
theorem C8_unmatched_graded_witness :
    ([some ("A) w".toList)].all pyTruthy = true)
    ∧ submitQuiz [qE] [some ("A) w".toList)] =
      SubmitResult.graded
        (quizScore [qE] ([some ("A) w".toList)].map fun s => (s.getD []).take 1))
        [qE].length :=
  ⟨by decide, (C8_unmatched_graded [qE] [some ("A) w".toList)] (by decide)).1⟩

/-- Claim C9: `parse_questions` is a total function that returns at most
one question per block — so degradation only shortens the result — and
on the empty string it returns the empty sequence. -/
theorem C9_parse_total :
    (∀ raw : List Char,
      (parse_questions raw).length ≤ (splitOnNlNl (pyStrip raw)).length)
    ∧ parse_questions ("".toList) = [] :=
  ⟨fun _ => List.length_filterMap_le _ _, rfl⟩

/-- Claim C10: every question returned by `parse_questions` has a
non-empty stripped question text, a non-empty options list whose entries
all start with a letter `A`–`D` followed by `)` or `.`, and a non-empty
answer that is already stripped and uppercase-normalized. -/
theorem C10_question_invariant (raw : List Char) (q : QData)
    (h : q ∈ parse_questions raw) :
    ¬q.question = [] ∧ pyStrip q.question = q.question ∧
    ¬q.options = [] ∧ (∀ o ∈ q.options, optShape o = true) ∧
    ¬q.answer = [] ∧ pyStrip q.answer = q.answer ∧
    pyUpper q.answer = q.answer := by
  rcases mem_parse_questions.mp h with ⟨blk, hblk, heq, hq, ho, ha⟩
  have hinv : QInv q := heq ▸ parseBlock_inv blk
  exact ⟨hq, hinv.1, ho, hinv.2.1, ha, hinv.2.2.1, hinv.2.2.2⟩

/-- Witness for claim C10 at a concrete parsed question. -/
theorem C10_question_invariant_witness :
    qB ∈ parse_questions ("Question: What is 2+2?\nA) 3\nB) 4\nAnswer: b".toList)
    ∧ (¬qB.question = [] ∧ pyStrip qB.question = qB.question ∧
      ¬qB.options = [] ∧ (∀ o ∈ qB.options, optShape o = true) ∧
      ¬qB.answer = [] ∧ pyStrip qB.answer = qB.answer ∧
      pyUpper qB.answer = qB.answer) :=
  ⟨by decide,
    C10_question_invariant ("Question: What is 2+2?\nA) 3\nB) 4\nAnswer: b".toList)
      qB (by decide)⟩
